import Mathlib

/-!
# Verification of the Rumble video downloader service (`src/main.py`)

Shallow embedding of the acquisition pipeline: request validation
(`RumbleRequest.validate_url`), listing extraction (`extract_video_urls`),
per-item download with partial-file cleanup (`download_video`), archive
creation (`create_zip_file`), object-store upload (`upload_zip_to_r2`),
staging cleanup (`cleanup_temp_files`), and the two endpoints
(`get_rumble_video_urls`, `download_rumble_videos`).

External effects (yt-dlp network calls, the R2 store, the local filesystem)
are modelled explicitly: the filesystem is a list of structured paths, the
extraction capability is a function parameter, and each download's outcome
(success, or failure together with whatever partial artifacts the
interrupted writer left behind) is an environment parameter.
-/

namespace Rumble

/-- Decidable equality for `Except` results (Python: comparing an endpoint's
outcome — a raised exception or a returned value — with an expected one). -/
instance {ε α : Type} [DecidableEq ε] [DecidableEq α] : DecidableEq (Except ε α) := by
  intro a b
  cases a with
  | error e =>
    cases b with
    | error f => exact decidable_of_iff (e = f) (by simp)
    | ok y => exact isFalse (by simp)
  | ok x =>
    cases b with
    | error f => exact isFalse (by simp)
    | ok y => exact decidable_of_iff (x = y) (by simp)

/-! ## A regular-expression engine (Brzozowski derivatives)

`RumbleRequest.validate_url` validates `page_url` against a compiled
`re` pattern with `re.IGNORECASE`.  We embed the pattern with a small
regex AST and a derivative-based matcher.  Character classes are Lean
predicates; Python's Unicode classes (`\d`, `\S`) are rendered with the
ASCII predicates `Char.isDigit` / `Char.isWhitespace`, which agree with
Python on every input the service's callers can send over HTTP headers
and on all inputs considered below. -/

inductive Regex where
  | emp
  | eps
  | cls (p : Char → Bool)
  | seq (r s : Regex)
  | alt (r s : Regex)
  | star (r : Regex)
  | rep (r : Regex) (lo hi : Nat)
deriving Inhabited

def Regex.nullable : Regex → Bool
  | .emp => false
  | .eps => true
  | .cls _ => false
  | .seq r s => r.nullable && s.nullable
  | .alt r s => r.nullable || s.nullable
  | .star _ => true
  | .rep r lo hi => lo == 0 || (r.nullable && lo ≤ hi)

/-- Smart sequencing constructor (keeps derivatives small). -/
def Regex.seqS : Regex → Regex → Regex
  | .emp, _ => .emp
  | _, .emp => .emp
  | .eps, s => s
  | r, .eps => r
  | r, s => .seq r s

/-- Smart alternation constructor (keeps derivatives small). -/
def Regex.altS : Regex → Regex → Regex
  | .emp, s => s
  | r, .emp => r
  | r, s => .alt r s

def Regex.deriv : Regex → Char → Regex
  | .emp, _ => .emp
  | .eps, _ => .emp
  | .cls p, c => if p c then .eps else .emp
  | .seq r s, c =>
      if r.nullable then .altS (Regex.seqS (r.deriv c) s) (s.deriv c)
      else Regex.seqS (r.deriv c) s
  | .alt r s, c => Regex.altS (r.deriv c) (s.deriv c)
  | .star r, c => Regex.seqS (r.deriv c) (.star r)
  | .rep r lo hi, c =>
      if hi == 0 then .emp
      else Regex.seqS (r.deriv c) (.rep r (lo - 1) (hi - 1))

/-- Full-string match: the pattern is anchored (`^ ... $`), exactly as
`url_pattern.match(...)` with a trailing `$` behaves on stripped input. -/
def Regex.rmatch (r : Regex) (s : String) : Bool :=
  (s.toList.foldl Regex.deriv r).nullable

/-- One literal character (the pattern is compiled with `re.IGNORECASE`,
so letters match either case). -/
def ichr (c : Char) : Regex := .cls (fun d => d.toLower == c.toLower)

/-- A case-insensitive literal string. -/
def ilit (s : String) : Regex := s.toList.foldr (fun c r => .seq (ichr c) r) .eps

def Regex.opt (r : Regex) : Regex := .alt r .eps

def Regex.plus (r : Regex) : Regex := .seq r (.star r)

/-- `[A-Z]` under `re.IGNORECASE`: an ASCII letter. -/
def alphaCls : Regex := .cls Char.isAlpha

/-- `[A-Z0-9]` under `re.IGNORECASE`: an ASCII letter or digit. -/
def alnumCls : Regex := .cls Char.isAlphanum

/-- `[A-Z0-9-]` under `re.IGNORECASE`. -/
def alnumDashCls : Regex := .cls (fun c => c.isAlphanum || c == '-')

/-- `\d`. -/
def digitCls : Regex := .cls Char.isDigit

/-- `\S`. -/
def nonSpaceCls : Regex := .cls (fun c => !c.isWhitespace)

/-- `(?:[A-Z0-9](?:[A-Z0-9-]{0,61}[A-Z0-9])?\.)` — one domain label and
its trailing dot. -/
def domainLabel : Regex :=
  .seq alnumCls (.seq (Regex.opt (.seq (.rep alnumDashCls 0 61) alnumCls)) (.cls (fun c => c == '.')))

/-- `(?:...)+[A-Z]{2,6}\.?` — a dotted domain name with a 2–6 letter TLD. -/
def domainRegex : Regex :=
  .seq (Regex.plus domainLabel) (.seq (.rep alphaCls 2 6) (Regex.opt (.cls (fun c => c == '.'))))

/-- `\d{1,3}` — one to three digits, with no range check on the value. -/
def octet : Regex := .rep digitCls 1 3

/-- `\d{1,3}\.\d{1,3}\.\d{1,3}\.\d{1,3}` — a dotted quad. -/
def ipv4Regex : Regex :=
  .seq octet (.seq (.cls (fun c => c == '.'))
    (.seq octet (.seq (.cls (fun c => c == '.'))
      (.seq octet (.seq (.cls (fun c => c == '.')) octet)))))

/-- The host alternation: dotted domain, `localhost`, or dotted quad. -/
def hostRegex : Regex := .alt domainRegex (.alt (ilit "localhost") ipv4Regex)

/-- `(?::\d+)?` — an optional port. -/
def portRegex : Regex := Regex.opt (.seq (.cls (fun c => c == ':')) (Regex.plus digitCls))

/-- `(?:/?|[/?]\S+)` — an optional bare slash, or a path/query tail. -/
def tailRegex : Regex :=
  .alt (Regex.opt (.cls (fun c => c == '/')))
    (.seq (.cls (fun c => c == '/' || c == '?')) (Regex.plus nonSpaceCls))

/-- The compiled `url_pattern` of `RumbleRequest.validate_url`. -/
def url_pattern : Regex :=
  .seq (ilit "http")
    (.seq (Regex.opt (ichr 's'))
      (.seq (ilit "://")
        (.seq hostRegex (.seq portRegex tailRegex))))

/-- Python's `str.strip()`: drop whitespace from both ends. -/
def pyStrip (s : String) : String :=
  ⟨((s.data.dropWhile Char.isWhitespace).reverse.dropWhile Char.isWhitespace).reverse⟩

/-- `RumbleRequest.validate_url`: rejects empty/whitespace-only input,
matches the stripped input against `url_pattern`, and returns the
stripped input. -/
def validate_url (v : String) : Except String String :=
  if v = "" || pyStrip v = "" then
    .error "page_url must be a non-empty string"
  else if url_pattern.rmatch (pyStrip v) then
    .ok (pyStrip v)
  else
    .error "page_url must be a valid HTTP/HTTPS URL"

/-! ## Listing extraction (`extract_video_urls`)

`yt_dlp.YoutubeDL(ydl_opts).extract_info(page_url, download=False)` is an
external capability.  Its result is a (possibly absent) info dict: an
optional `entries` list (each entry possibly null, with optional `url` and
`id` keys) plus optional top-level `url` / `id` keys.  A raised exception
is `Except.error`; a falsy result is `Option.none`. -/

structure Entry where
  url : Option String
  id : Option String
deriving DecidableEq

structure ExtractResult where
  entries : Option (List (Option Entry))
  url : Option String
  id : Option String
deriving DecidableEq

/-- The `ydl_opts` dict built by `extract_video_urls`. -/
structure YdlExtractOpts where
  quiet : Bool
  no_warnings : Bool
  extract_flat : Bool
  playlistend : Nat
  retries : Nat
  socket_timeout : Nat
deriving DecidableEq

def extractOpts (max_videos : Nat) : YdlExtractOpts :=
  { quiet := true, no_warnings := true, extract_flat := true,
    playlistend := max_videos, retries := 3, socket_timeout := 15 }

/-- The extraction capability: called with the built options and the page
URL; it may raise (`error`), return a falsy result (`ok none`), or return
an info dict. -/
def ExtractCap : Type := YdlExtractOpts → String → Except String (Option ExtractResult)

/-- The single-page fallback of `extract_video_urls`: top-level `url`,
else a reference synthesized from the top-level `id`. -/
def top_level_urls (result : ExtractResult) : List String :=
  match result.url with
  | some u => [u]
  | none =>
    match result.id with
    | some i => ["https://rumble.com/" ++ i]
    | none => []

/-- The url-collection logic of `extract_video_urls`: if the result has a
truthy `entries` list, collect each entry's `url` (or synthesize from its
`id`), skipping null entries; otherwise fall back to the top level. -/
def collect_video_urls (result : ExtractResult) : List String :=
  match result.entries with
  | some entries =>
    if entries ≠ [] then
      entries.foldl (fun acc oe =>
        match oe with
        | none => acc
        | some entry =>
          match entry.url with
          | some u => acc ++ [u]
          | none =>
            match entry.id with
            | some i => acc ++ ["https://rumble.com/" ++ i]
            | none => acc) []
    else top_level_urls result
  | none => top_level_urls result

/-- `extract_video_urls`: build the options with `playlistend =
max_videos`, invoke the capability, fail on a raised or empty result,
collect the urls and truncate defensively to `max_videos`. -/
def extract_video_urls (extract_info : ExtractCap) (page_url : String)
    (max_videos : Nat := 10) : Except String (List String) :=
  let ydl_opts := extractOpts max_videos
  match extract_info ydl_opts page_url with
  | .error e => .error e
  | .ok none => .error "No data extracted from page"
  | .ok (some result) => .ok ((collect_video_urls result).take max_videos)

/-! ## The local filesystem and the effect state

A local file is a directory plus a base name; the download staging
directory `tmp/<job-id>` contains only directly staged files (the code
never creates subdirectories inside it).  `WorldState` also records the
observable effect trace: which download attempts ran, which success
counts were reported, which archives were created, which keys were
uploaded, and which background cleanup tasks were scheduled. -/

structure Path where
  dir : String
  base : String
deriving DecidableEq

structure WorldState where
  fs : Finset Path
  attempts : List Nat
  reported : List Nat
  zipsCreated : List Path
  uploads : List String
  scheduled : List (String × Path)
deriving DecidableEq

/-- `os.path.exists`. -/
def existsFile (fs : Finset Path) (p : Path) : Bool := p ∈ fs

/-- `os.remove`. -/
def removeFile (fs : Finset Path) (p : Path) : Finset Path := fs.erase p

/-- Writing (or fully re-writing) the file at `p`. -/
def writeFile (fs : Finset Path) (p : Path) : Finset Path := insert p fs

/-- The guarded removal pattern `if os.path.exists(p): os.remove(p)`. -/
def removeIfExists (fs : Finset Path) (p : Path) : Finset Path :=
  if existsFile fs p then removeFile fs p else fs

/-- `os.path.exists` on a staging directory (modelled by its contents). -/
def existsDir (fs : Finset Path) (d : String) : Bool := ∃ p ∈ fs, p.dir = d

/-- `shutil.rmtree(d, ignore_errors=True)`. -/
def rmtree (fs : Finset Path) (d : String) : Finset Path := fs.filter (fun p => p.dir ≠ d)

/-- The regular files below a directory (`os.walk`). -/
def dirFiles (fs : Finset Path) (d : String) : Finset Path := fs.filter (fun p => p.dir = d)

/-- `cleanup_temp_files`: the background task removing the staging
directory and the temporary archive. -/
def cleanup_temp_files (fs : Finset Path) (temp_dir : String) (zip_path : Path) : Finset Path :=
  removeIfExists (if existsDir fs temp_dir then rmtree fs temp_dir else fs) zip_path

/-! ## Per-item download (`download_video`) -/

/-- The temp-file suffix list cleaned after a failed download
(`partial_extensions` in the source). -/
def temp_extensions : List String := [".part", ".ytdl", ".temp", ".download"]

/-- The `ydl_opts` dict built by `download_video`. -/
structure YdlDownloadOpts where
  format : String
  outtmpl : Path
  quiet : Bool
  no_warnings : Bool
  retries : Nat
  socket_timeout : Nat
deriving DecidableEq

def downloadOpts (output_path : Path) : YdlDownloadOpts :=
  { format := "best[ext=mp4]/best", outtmpl := output_path, quiet := true,
    no_warnings := true, retries := 3, socket_timeout := 30 }

/-- One download's environment-determined outcome: whether
`ydl.download([video_url])` succeeds, and — when it raises — whether it
left a partially written file at the output path and which temp-suffix
files it left behind. -/
structure DlBehavior where
  succeeds : Bool
  leavesOutput : Bool
  leftoverExts : List String
deriving DecidableEq

/-- The path `output_path + ext` of a temp artifact next to `output_path`. -/
def extPath (output_path : Path) (ext : String) : Path :=
  ⟨output_path.dir, output_path.base ++ ext⟩

/-- `download_video`: run the download; on success the full payload is at
`output_path`; on a raised exception, remove the output file if present
and every known temp-suffix file, then return `False`. -/
def download_video (beh : DlBehavior) (video_url : String) (output_path : Path)
    (video_number : Nat) (w : WorldState) : Bool × WorldState :=
  let _ := video_url
  let _ := downloadOpts output_path
  let w := { w with attempts := w.attempts ++ [video_number] }
  if beh.succeeds then
    (true, { w with fs := writeFile w.fs output_path })
  else
    let fs0 := if beh.leavesOutput then writeFile w.fs output_path else w.fs
    let fs1 := beh.leftoverExts.foldl (fun f e => writeFile f (extPath output_path e)) fs0
    let fs2 := removeIfExists fs1 output_path
    let fs3 := temp_extensions.foldl (fun f e => removeIfExists f (extPath output_path e)) fs2
    (false, { w with fs := fs3 })

/-! ## Archive, upload, endpoints -/

/-- Python's `f"video{idx:02d}"` zero-padded index. -/
def pad2 (n : Nat) : String := if n < 10 then "0" ++ toString n else toString n

/-- The staged file name `f"video{idx:02d}.mp4"`. -/
def video_filename (idx : Nat) : String := "video" ++ pad2 idx ++ ".mp4"

/-- The download loop of `/api/rumble-zip`: `for idx, video_url in
enumerate(video_urls, 1)`, counting successful downloads. -/
def download_loop (beh : Nat → DlBehavior) (temp_dir : String) :
    List String → Nat → WorldState → Nat × WorldState
  | [], _, w => (0, w)
  | video_url :: rest, idx, w =>
    let output_path : Path := ⟨temp_dir, video_filename idx⟩
    let (ok, w1) := download_video (beh idx) video_url output_path idx w
    let (cnt, w2) := download_loop beh temp_dir rest (idx + 1) w1
    ((if ok then 1 else 0) + cnt, w2)

/-- `create_zip_file`: walk `source_dir`, pack every file, return the
member count; the archive appears at `zip_path`. -/
def create_zip_file (w : WorldState) (source_dir : String) (zip_path : Path) :
    Nat × WorldState :=
  let file_count := (dirFiles w.fs source_dir).card
  (file_count,
   { w with fs := writeFile w.fs zip_path, zipsCreated := w.zipsCreated ++ [zip_path] })

def R2_PUBLIC_BASE_URL : String := "https://pub-2088e0ca945a43f996f9d7be86ec3dc5.r2.dev"

/-- `upload_zip_to_r2`: upload the archive under `key` and return
`f"{R2_PUBLIC_BASE_URL.rstrip('/')}/{key}"` (the configured base has no
trailing slash, so `rstrip` is the identity on it); a failed upload
re-raises. -/
def upload_zip_to_r2 (uploadOk : Bool) (zip_path : Path) (key : String)
    (w : WorldState) : Except String (String × WorldState) :=
  let _ := zip_path
  if uploadOk then
    .ok (R2_PUBLIC_BASE_URL ++ "/" ++ key, { w with uploads := w.uploads ++ [key] })
  else
    .error "upload failed"

/-- The `/api/rumble-urls` endpoint: extraction failure is a 502, an
empty result is a 400, otherwise the count and the urls are returned. -/
def get_rumble_video_urls (extract_info : ExtractCap) (page_url : String)
    (max_videos : Nat) : Except (Nat × String) (Nat × List String) :=
  match extract_video_urls extract_info page_url max_videos with
  | .error _ => .error (502, "failed to extract videos from page")
  | .ok video_urls =>
    if video_urls = [] then .error (400, "no videos found on page")
    else .ok (video_urls.length, video_urls)

/-- The environment of one `/api/rumble-zip` job: the extraction
capability, each item's download outcome (by 1-based item index), and
whether the R2 upload succeeds. -/
structure JobEnv where
  extract_info : ExtractCap
  dl : Nat → DlBehavior
  uploadOk : Bool

structure ZipResponse where
  job_id : String
  page_url : String
  max_videos : Nat
  file_count : Nat
  download_url : String
  status : String
deriving DecidableEq

inductive JobOutcome where
  | httpError (status : Nat) (detail : String)
  | ready (resp : ZipResponse)
deriving DecidableEq

def JobOutcome.isError : JobOutcome → Bool
  | .httpError _ _ => true
  | .ready _ => false

/-- The staging directory `tmp/<random_id>` of a job. -/
def staging_dir (random_id : String) : String := "tmp/" ++ random_id

/-- The temporary archive `tmp/<random_id>.zip` of a job. -/
def zip_path_of (random_id : String) : Path := ⟨"tmp", random_id ++ ".zip"⟩

/-- The `except` branches of `/api/rumble-zip`: remove the staging
directory and the archive, then re-raise as an HTTP error. -/
def job_fail (w : WorldState) (temp_dir : String) (zip_path : Path)
    (status : Nat) (detail : String) : JobOutcome × WorldState :=
  let fs1 := rmtree w.fs temp_dir
  let fs2 := removeIfExists fs1 zip_path
  (.httpError status detail, { w with fs := fs2 })

/-- The `/api/rumble-zip` endpoint: extract, download each url, require at
least one success, zip, upload to R2, schedule local cleanup, and return
the response; every raised error first removes the staging artifacts. -/
def download_rumble_videos (env : JobEnv) (page_url : String) (max_videos : Nat)
    (random_id : String) (w : WorldState) : JobOutcome × WorldState :=
  let temp_dir := staging_dir random_id
  let zip_path := zip_path_of random_id
  match extract_video_urls env.extract_info page_url max_videos with
  | .error _ => job_fail w temp_dir zip_path 502 "failed to extract videos from page"
  | .ok video_urls =>
    if video_urls = [] then job_fail w temp_dir zip_path 400 "no videos found on page"
    else
      let dl := download_loop env.dl temp_dir video_urls 1 w
      let successful_downloads := dl.1
      let w2 := { dl.2 with reported := dl.2.reported ++ [successful_downloads] }
      if successful_downloads = 0 then
        job_fail w2 temp_dir zip_path 500 "could not download any videos"
      else
        let zipped := create_zip_file w2 temp_dir zip_path
        let file_count := zipped.1
        let r2_key := "rumble_zips/" ++ random_id ++ ".zip"
        match upload_zip_to_r2 env.uploadOk zip_path r2_key zipped.2 with
        | .error e => job_fail zipped.2 temp_dir zip_path 500 ("internal server error: " ++ e)
        | .ok res =>
          (.ready { job_id := random_id, page_url := page_url, max_videos := max_videos,
                    file_count := file_count, download_url := res.1,
                    status := "ready" },
           { res.2 with scheduled := res.2.scheduled ++ [(temp_dir, zip_path)] })

/-! ## Encoding selection

Modelled from the spec: the deterministic encoding-selection policy of
§4.2 (filter to usable preferred-format candidates, fall back to all
usable candidates, sort by vertical resolution then bitrate descending
with ties broken by encounter order, pick the first).  In the source this
choice is delegated to yt-dlp through the format string
`"best[ext=mp4]/best"` in `download_video`'s options; the policy itself
is not code under `src/`. -/

structure Encoding where
  height : Nat
  tbr : Nat
  ext : String
  url : Option String
deriving DecidableEq

/-- A candidate exposing a usable transfer URL. -/
def usableEnc (e : Encoding) : Bool := e.url.isSome

/-- A usable candidate declaring the preferred mp4 container. -/
def preferredEnc (e : Encoding) : Bool := e.ext == "mp4" && usableEnc e

/-- `a` strictly precedes `b` in the `(height desc, tbr desc)` order. -/
def betterEnc (a b : Encoding) : Bool :=
  b.height < a.height || (a.height == b.height && b.tbr < a.tbr)

/-- First element of a stable `(height desc, tbr desc)` sort: the
earliest candidate no later candidate strictly beats. -/
def pickFirstBest : List Encoding → Option Encoding
  | [] => none
  | e :: rest =>
    match pickFirstBest rest with
    | none => some e
    | some b => if betterEnc b e then some b else some e

/-- Modelled from the spec: §4.2's selection — filter to preferred usable
candidates, fall back to all usable ones, and pick the best survivor. -/
def select_encoding (cands : List Encoding) : Option Encoding :=
  let preferred := cands.filter preferredEnc
  if preferred ≠ [] then pickFirstBest preferred
  else pickFirstBest (cands.filter usableEnc)

/-- Scenario D's candidate set. -/
def scenarioD : List Encoding :=
  [⟨720, 1000, "mp4", some "u720"⟩, ⟨1080, 800, "mp4", some "u1080"⟩,
   ⟨1080, 1200, "webm", some "uwebm"⟩]

/-! ## Filesystem lemmas -/

theorem mem_writeFile {fs : Finset Path} {p q : Path} :
    q ∈ writeFile fs p ↔ q = p ∨ q ∈ fs := by
  simp [writeFile]

theorem mem_removeIfExists {fs : Finset Path} {p q : Path} :
    q ∈ removeIfExists fs p ↔ q ∈ fs ∧ q ≠ p := by
  unfold removeIfExists existsFile removeFile
  by_cases h : p ∈ fs
  · simp [h, Finset.mem_erase, and_comm]
  · simp only [h, decide_False, Bool.false_eq_true, if_false]
    constructor
    · intro hq
      refine ⟨hq, ?_⟩
      rintro rfl
      exact h hq
    · exact fun hq => hq.1

theorem mem_foldl_writeFile {α : Type} (g : α → Path) (l : List α)
    (fs : Finset Path) (q : Path) :
    q ∈ l.foldl (fun f e => writeFile f (g e)) fs ↔ q ∈ fs ∨ ∃ e ∈ l, q = g e := by
  induction l generalizing fs with
  | nil => simp
  | cons a t ih =>
    simp only [List.foldl_cons, ih, mem_writeFile, List.mem_cons]
    constructor
    · rintro ((rfl | hq) | ⟨e, he, rfl⟩)
      · exact Or.inr ⟨a, Or.inl rfl, rfl⟩
      · exact Or.inl hq
      · exact Or.inr ⟨e, Or.inr he, rfl⟩
    · rintro (hq | ⟨e, (rfl | he), rfl⟩)
      · exact Or.inl (Or.inr hq)
      · exact Or.inl (Or.inl rfl)
      · exact Or.inr ⟨e, he, rfl⟩

theorem mem_foldl_removeIfExists {α : Type} (g : α → Path) (l : List α)
    (fs : Finset Path) (q : Path) :
    q ∈ l.foldl (fun f e => removeIfExists f (g e)) fs ↔
      q ∈ fs ∧ ∀ e ∈ l, q ≠ g e := by
  induction l generalizing fs with
  | nil => simp
  | cons a t ih =>
    simp only [List.foldl_cons, ih, mem_removeIfExists, List.mem_cons]
    constructor
    · rintro ⟨⟨hq, hne⟩, hall⟩
      exact ⟨hq, fun e he => he.elim (fun h => h ▸ hne) (hall e)⟩
    · rintro ⟨hq, hall⟩
      exact ⟨⟨hq, hall a (Or.inl rfl)⟩, fun e he => hall e (Or.inr he)⟩

theorem mem_cleanup_temp_files {fs : Finset Path} {td : String} {zp q : Path} :
    q ∈ cleanup_temp_files fs td zp ↔ q ∈ fs ∧ q.dir ≠ td ∧ q ≠ zp := by
  unfold cleanup_temp_files
  rw [mem_removeIfExists]
  by_cases h : existsDir fs td = true
  · simp only [h, if_true, rmtree, Finset.mem_filter, decide_eq_true_eq]
    tauto
  · simp only [h, if_false]
    have hnot : ∀ p ∈ fs, p.dir ≠ td := by
      intro p hp hc
      apply h
      simp only [existsDir, decide_eq_true_eq]
      exact ⟨p, hp, hc⟩
    constructor
    · rintro ⟨hq, hne⟩
      exact ⟨hq, hnot q hq, hne⟩
    · rintro ⟨hq, _, hne⟩
      exact ⟨hq, hne⟩

theorem mem_job_fail_fs {w : WorldState} {td : String} {zp q : Path}
    {st : Nat} {d : String} :
    q ∈ (job_fail w td zp st d).2.fs ↔ q ∈ w.fs ∧ q.dir ≠ td ∧ q ≠ zp := by
  unfold job_fail
  simp only [mem_removeIfExists, rmtree, Finset.mem_filter, decide_eq_true_eq]
  tauto

theorem job_fail_fst {w : WorldState} {td : String} {zp : Path} {st : Nat} {d : String} :
    (job_fail w td zp st d).1 = .httpError st d := rfl

theorem job_fail_trace (w : WorldState) (td : String) (zp : Path) (st : Nat) (d : String) :
    (job_fail w td zp st d).2.attempts = w.attempts ∧
    (job_fail w td zp st d).2.reported = w.reported ∧
    (job_fail w td zp st d).2.zipsCreated = w.zipsCreated ∧
    (job_fail w td zp st d).2.uploads = w.uploads ∧
    (job_fail w td zp st d).2.scheduled = w.scheduled := by
  unfold job_fail
  exact ⟨rfl, rfl, rfl, rfl, rfl⟩

/-! ## `download_video` lemmas -/

theorem download_video_fst (beh : DlBehavior) (u : String) (out : Path)
    (n : Nat) (w : WorldState) :
    (download_video beh u out n w).1 = beh.succeeds := by
  unfold download_video
  by_cases h : beh.succeeds <;> simp [h]

theorem download_video_trace (beh : DlBehavior) (u : String) (out : Path)
    (n : Nat) (w : WorldState) :
    (download_video beh u out n w).2.attempts = w.attempts ++ [n] ∧
    (download_video beh u out n w).2.reported = w.reported ∧
    (download_video beh u out n w).2.zipsCreated = w.zipsCreated ∧
    (download_video beh u out n w).2.uploads = w.uploads ∧
    (download_video beh u out n w).2.scheduled = w.scheduled := by
  unfold download_video
  by_cases h : beh.succeeds <;> simp [h]

theorem mem_download_video_succ {beh : DlBehavior} (h : beh.succeeds = true)
    (u : String) (out : Path) (n : Nat) (w : WorldState) (q : Path) :
    q ∈ (download_video beh u out n w).2.fs ↔ q = out ∨ q ∈ w.fs := by
  unfold download_video
  simp [h, mem_writeFile]

theorem mem_download_video_fail {beh : DlBehavior} (h : beh.succeeds = false)
    (u : String) (out : Path) (n : Nat) (w : WorldState) (q : Path) :
    q ∈ (download_video beh u out n w).2.fs ↔
      (q ∈ w.fs ∨ ∃ e ∈ beh.leftoverExts, q = extPath out e) ∧
      q ≠ out ∧ ∀ e ∈ temp_extensions, q ≠ extPath out e := by
  unfold download_video
  simp only [h, Bool.false_eq_true, if_false]
  rw [mem_foldl_removeIfExists, mem_removeIfExists, mem_foldl_writeFile]
  by_cases hl : beh.leavesOutput <;> simp only [hl, if_true, Bool.false_eq_true,
    if_false, mem_writeFile] <;> tauto

/-! ## `download_loop` lemmas -/

theorem download_loop_trace (beh : Nat → DlBehavior) (td : String)
    (urls : List String) (idx : Nat) (w : WorldState) :
    (download_loop beh td urls idx w).2.attempts = w.attempts ++ List.range' idx urls.length ∧
    (download_loop beh td urls idx w).2.reported = w.reported ∧
    (download_loop beh td urls idx w).2.zipsCreated = w.zipsCreated ∧
    (download_loop beh td urls idx w).2.uploads = w.uploads ∧
    (download_loop beh td urls idx w).2.scheduled = w.scheduled := by
  induction urls generalizing idx w with
  | nil => simp [download_loop]
  | cons u t ih =>
    have hdv := download_video_trace (beh idx) u ⟨td, video_filename idx⟩ idx w
    have hih := ih (idx + 1) (download_video (beh idx) u ⟨td, video_filename idx⟩ idx w).2
    simp only [download_loop]
    simp only [List.length_cons, List.range'_succ]
    refine ⟨?_, ?_, ?_, ?_, ?_⟩ <;>
      simp [hih.1, hih.2.1, hih.2.2.1, hih.2.2.2.1, hih.2.2.2.2,
        hdv.1, hdv.2.1, hdv.2.2.1, hdv.2.2.2.1, hdv.2.2.2.2]

theorem download_loop_fst (beh : Nat → DlBehavior) (td : String)
    (urls : List String) (idx : Nat) (w : WorldState) :
    (download_loop beh td urls idx w).1 =
      (List.range' idx urls.length).countP (fun i => (beh i).succeeds) := by
  induction urls generalizing idx w with
  | nil => simp [download_loop]
  | cons u t ih =>
    simp only [download_loop, List.length_cons, List.range'_succ, List.countP_cons]
    rw [download_video_fst, ih]
    by_cases h : (beh idx).succeeds <;> simp [h] <;> omega

/-- Filesystem effect of the whole download loop: starting from a state
whose files under `td` are untouched by the remaining items, the loop
adds exactly one staged file per successful item and leaves no other
trace (failed items clean up after themselves). -/
theorem download_loop_fs_mem (beh : Nat → DlBehavior) (td : String)
    (urls : List String) (idx : Nat) (w : WorldState)
    (hold : ∀ p ∈ w.fs, p.dir = td → ∀ j, idx ≤ j → j < idx + urls.length →
      p.base ≠ video_filename j ∧ ∀ e ∈ temp_extensions, p.base ≠ video_filename j ++ e)
    (hjunk : ∀ j, idx ≤ j → j < idx + urls.length →
      ∀ e ∈ (beh j).leftoverExts, e ∈ temp_extensions)
    (hdist : ∀ i j, idx ≤ i → i < idx + urls.length → idx ≤ j → j < idx + urls.length →
      i ≠ j → video_filename i ≠ video_filename j)
    (hdiste : ∀ i j, idx ≤ i → i < idx + urls.length → idx ≤ j → j < idx + urls.length →
      ∀ e ∈ temp_extensions, video_filename i ++ e ≠ video_filename j) :
    ∀ q, q ∈ (download_loop beh td urls idx w).2.fs ↔
      q ∈ w.fs ∨ ∃ i, idx ≤ i ∧ i < idx + urls.length ∧ (beh i).succeeds = true ∧
        q = (⟨td, video_filename i⟩ : Path) := by
  induction urls generalizing idx w with
  | nil =>
    intro q
    simp only [download_loop, List.length_nil]
    constructor
    · intro hq
      exact Or.inl hq
    · rintro (hq | ⟨i, h1, h2, _, _⟩)
      · exact hq
      · omega
  | cons u t ih =>
    intro q
    simp only [List.length_cons] at hold hjunk hdist hdiste
    simp only [download_loop, List.length_cons]
    set out : Path := ⟨td, video_filename idx⟩ with hout
    set w1 := (download_video (beh idx) u out idx w).2 with hw1
    by_cases hs : (beh idx).succeeds = true
    · -- item idx succeeds: it stages exactly `out`
      have hmem1 : ∀ p, p ∈ w1.fs ↔ p = out ∨ p ∈ w.fs :=
        mem_download_video_succ hs u out idx w
      have hold1 : ∀ p ∈ w1.fs, p.dir = td → ∀ j, idx + 1 ≤ j → j < idx + 1 + t.length →
          p.base ≠ video_filename j ∧
          ∀ e ∈ temp_extensions, p.base ≠ video_filename j ++ e := by
        intro p hp hdir j hj1 hj2
        rcases (hmem1 p).mp hp with rfl | hpw
        · constructor
          · exact hdist idx j (le_refl idx) (by omega) (by omega) (by omega) (by omega)
          · intro e he heq
            exact hdiste j idx (by omega) (by omega) (le_refl idx) (by omega) e he heq.symm
        · exact hold p hpw hdir j (by omega) (by omega)
      have hrec := ih (idx + 1) w1 hold1
        (fun j h1 h2 => hjunk j (by omega) (by omega))
        (fun i j h1 h2 h3 h4 => hdist i j (by omega) (by omega) (by omega) (by omega))
        (fun i j h1 h2 h3 h4 => hdiste i j (by omega) (by omega) (by omega) (by omega))
      rw [hrec q, hmem1 q]
      constructor
      · rintro ((rfl | hq) | ⟨i, h1, h2, h3, h4⟩)
        · exact Or.inr ⟨idx, le_refl idx, by omega, hs, rfl⟩
        · exact Or.inl hq
        · exact Or.inr ⟨i, by omega, by omega, h3, h4⟩
      · rintro (hq | ⟨i, h1, h2, h3, h4⟩)
        · exact Or.inl (Or.inr hq)
        · by_cases hi : i = idx
          · subst hi
            exact Or.inl (Or.inl h4)
          · exact Or.inr ⟨i, by omega, by omega, h3, h4⟩
    · -- item idx fails: its temp artifacts are removed before it reports
      have hs' : (beh idx).succeeds = false := by
        cases h : (beh idx).succeeds
        · rfl
        · exact absurd h hs
      have hmem1 : ∀ p, p ∈ w1.fs ↔ p ∈ w.fs := by
        intro p
        rw [hw1, mem_download_video_fail hs' u out idx w p]
        constructor
        · rintro ⟨hin | ⟨e, he, rfl⟩, hne, hnee⟩
          · exact hin
          · exact absurd rfl (hnee e (hjunk idx (le_refl idx) (by omega) e he))
        · intro hp
          have hb := hold p hp
          refine ⟨Or.inl hp, ?_, ?_⟩
          · rintro rfl
            exact (hb rfl idx (le_refl idx) (by omega)).1 rfl
          · rintro e he rfl
            exact ((hb rfl idx (le_refl idx) (by omega)).2 e he) rfl
      have hold1 : ∀ p ∈ w1.fs, p.dir = td → ∀ j, idx + 1 ≤ j → j < idx + 1 + t.length →
          p.base ≠ video_filename j ∧
          ∀ e ∈ temp_extensions, p.base ≠ video_filename j ++ e := by
        intro p hp hdir j hj1 hj2
        exact hold p ((hmem1 p).mp hp) hdir j (by omega) (by omega)
      have hrec := ih (idx + 1) w1 hold1
        (fun j h1 h2 => hjunk j (by omega) (by omega))
        (fun i j h1 h2 h3 h4 => hdist i j (by omega) (by omega) (by omega) (by omega))
        (fun i j h1 h2 h3 h4 => hdiste i j (by omega) (by omega) (by omega) (by omega))
      rw [hrec q, hmem1 q]
      constructor
      · rintro (hq | ⟨i, h1, h2, h3, h4⟩)
        · exact Or.inl hq
        · exact Or.inr ⟨i, by omega, by omega, h3, h4⟩
      · rintro (hq | ⟨i, h1, h2, h3, h4⟩)
        · exact Or.inl hq
        · by_cases hi : i = idx
          · subst hi
            rw [h3] at hs'
            cases hs'
          · exact Or.inr ⟨i, by omega, by omega, h3, h4⟩

/-- Staged-file count after the loop: starting from a fresh staging
directory, the files below it are exactly one per successful item. -/
theorem download_loop_file_count (beh : Nat → DlBehavior) (td : String)
    (urls : List String) (idx : Nat) (w : WorldState)
    (hfresh : ∀ p ∈ w.fs, p.dir ≠ td)
    (hjunk : ∀ j, idx ≤ j → j < idx + urls.length →
      ∀ e ∈ (beh j).leftoverExts, e ∈ temp_extensions)
    (hdist : ∀ i j, idx ≤ i → i < idx + urls.length → idx ≤ j → j < idx + urls.length →
      i ≠ j → video_filename i ≠ video_filename j)
    (hdiste : ∀ i j, idx ≤ i → i < idx + urls.length → idx ≤ j → j < idx + urls.length →
      ∀ e ∈ temp_extensions, video_filename i ++ e ≠ video_filename j) :
    (dirFiles (download_loop beh td urls idx w).2.fs td).card =
      (List.range' idx urls.length).countP (fun i => (beh i).succeeds) := by
  have hold : ∀ p ∈ w.fs, p.dir = td → ∀ j, idx ≤ j → j < idx + urls.length →
      p.base ≠ video_filename j ∧
      ∀ e ∈ temp_extensions, p.base ≠ video_filename j ++ e := by
    intro p hp hdir
    exact absurd hdir (hfresh p hp)
  have hmem := download_loop_fs_mem beh td urls idx w hold hjunk hdist hdiste
  have himg : dirFiles (download_loop beh td urls idx w).2.fs td =
      ((List.range' idx urls.length).filter (fun i => (beh i).succeeds)).toFinset.image
        (fun i => (⟨td, video_filename i⟩ : Path)) := by
    apply Finset.ext
    intro q
    simp only [dirFiles, Finset.mem_filter, decide_eq_true_eq, Finset.mem_image,
      List.mem_toFinset, List.mem_filter, List.mem_range'_1, hmem q]
    constructor
    · rintro ⟨hq | ⟨i, h1, h2, h3, rfl⟩, hdir⟩
      · exact absurd hdir (hfresh q hq)
      · exact ⟨i, ⟨⟨h1, by omega⟩, h3⟩, rfl⟩
    · rintro ⟨i, ⟨⟨h1, h2⟩, h3⟩, rfl⟩
      exact ⟨Or.inr ⟨i, h1, by omega, h3, rfl⟩, rfl⟩
  rw [himg, Finset.card_image_of_injOn, List.toFinset_card_of_nodup,
    List.countP_eq_length_filter]
  · exact ((List.nodup_range' idx urls.length).filter _)
  · intro i hi j hj heq
    simp only [Finset.mem_coe, List.mem_toFinset, List.mem_filter, List.mem_range'_1] at hi hj
    simp only [Path.mk.injEq, true_and] at heq
    by_contra hne
    exact hdist i j hi.1.1 (by omega) hj.1.1 (by omega) hne heq

/-! ## Small auxiliary lemmas -/

theorem string_append_ne_left {b e : String} (he : 0 < e.length) : b ++ e ≠ b := by
  intro h
  have hl := congrArg String.length h
  rw [String.length_append] at hl
  omega

theorem temp_extensions_length : ∀ e ∈ temp_extensions, 0 < e.length := by
  decide

/-- With exactly one failing index in `[1..N]`, the loop's success count
is `N - 1`. -/
theorem countP_one_failure (N k : Nat) (beh : Nat → DlBehavior)
    (hk1 : 1 ≤ k) (hk2 : k ≤ N) (hfail : (beh k).succeeds = false)
    (hsucc : ∀ i, 1 ≤ i → i ≤ N → i ≠ k → (beh i).succeeds = true) :
    (List.range' 1 N).countP (fun i => (beh i).succeeds) = N - 1 := by
  have hlen := List.length_eq_countP_add_countP (fun i => (beh i).succeeds) (List.range' 1 N)
  have hcong : (List.range' 1 N).countP (fun a => decide ¬(beh a).succeeds = true) =
      (List.range' 1 N).countP (fun i => i == k) := by
    apply List.countP_congr
    intro x hx
    rw [List.mem_range'_1] at hx
    simp only [decide_eq_true_eq, beq_iff_eq]
    constructor
    · intro hnx
      by_contra hne
      exact hnx (hsucc x hx.1 (by omega) hne)
    · rintro rfl
      simp [hfail]
  have hcount : (List.range' 1 N).countP (fun i => i == k) = 1 := by
    have : (List.range' 1 N).countP (fun i => i == k) = (List.range' 1 N).count k := rfl
    rw [this]
    exact List.count_eq_one_of_mem (List.nodup_range' 1 N)
      (List.mem_range'_1.mpr ⟨hk1, by omega⟩)
  rw [List.length_range'] at hlen
  omega

/-! ## `pickFirstBest` lemmas -/

theorem betterEnc_irrefl (a : Encoding) : betterEnc a a = false := by
  simp [betterEnc]

theorem betterEnc_asymm {a b : Encoding} (h : betterEnc a b = true) :
    betterEnc b a = false := by
  simp only [betterEnc, Bool.or_eq_true, Bool.and_eq_true, decide_eq_true_eq,
    beq_iff_eq] at h
  simp only [betterEnc, Bool.or_eq_false_iff, Bool.and_eq_false_iff,
    decide_eq_false_iff_not, Nat.not_lt, beq_eq_false_iff_ne, ne_eq]
  omega

theorem betterEnc_negtrans {a b c : Encoding} (h1 : betterEnc a b = true)
    (h2 : betterEnc a c = false) : betterEnc c b = true := by
  simp only [betterEnc, Bool.or_eq_true, Bool.and_eq_true, decide_eq_true_eq,
    beq_iff_eq] at h1 ⊢
  simp only [betterEnc, Bool.or_eq_false_iff, Bool.and_eq_false_iff,
    decide_eq_false_iff_not, Nat.not_lt, beq_eq_false_iff_ne, ne_eq] at h2
  omega

theorem pickFirstBest_cons_none {t : List Encoding} {a : Encoding}
    (hp : pickFirstBest t = none) : pickFirstBest (a :: t) = some a := by
  unfold pickFirstBest
  rw [hp]

theorem pickFirstBest_cons_some {t : List Encoding} {a b : Encoding}
    (hp : pickFirstBest t = some b) :
    pickFirstBest (a :: t) = if betterEnc b a = true then some b else some a := by
  unfold pickFirstBest
  rw [hp]

theorem pickFirstBest_ne_none {l : List Encoding} (h : l ≠ []) :
    pickFirstBest l ≠ none := by
  cases l with
  | nil => exact absurd rfl h
  | cons e t =>
    cases hp : pickFirstBest t with
    | none =>
      rw [pickFirstBest_cons_none hp]
      simp
    | some b =>
      rw [pickFirstBest_cons_some hp]
      by_cases hb : betterEnc b e = true
      · simp [hb]
      · simp [hb]

theorem pickFirstBest_mem_max {l : List Encoding} {c : Encoding}
    (h : pickFirstBest l = some c) :
    c ∈ l ∧ ∀ e ∈ l, betterEnc e c = false := by
  induction l generalizing c with
  | nil => cases h
  | cons a t ih =>
    cases hp : pickFirstBest t with
    | none =>
      rw [pickFirstBest_cons_none hp] at h
      cases h
      have ht : t = [] := by
        by_contra hne
        exact pickFirstBest_ne_none hne hp
      subst ht
      refine ⟨List.mem_singleton.mpr rfl, ?_⟩
      intro e he
      rw [List.mem_singleton] at he
      subst he
      exact betterEnc_irrefl _
    | some b =>
      rw [pickFirstBest_cons_some hp] at h
      obtain ⟨hbmem, hbmax⟩ := ih hp
      by_cases hb : betterEnc b a = true
      · rw [if_pos hb] at h
        cases h
        refine ⟨List.mem_cons_of_mem a hbmem, ?_⟩
        intro e he
        rcases List.mem_cons.mp he with rfl | het
        · exact betterEnc_asymm hb
        · exact hbmax e het
      · rw [if_neg hb] at h
        cases h
        refine ⟨List.mem_cons_self a t, ?_⟩
        intro e he
        rcases List.mem_cons.mp he with rfl | het
        · exact betterEnc_irrefl _
        · -- e in t cannot beat the head: otherwise it would beat b too
          by_contra hc
          rw [Bool.not_eq_false] at hc
          exact absurd (betterEnc_negtrans hc (hbmax e het)) hb

theorem pickFirstBest_first {l : List Encoding} {c : Encoding}
    (h : pickFirstBest l = some c) :
    ∀ l1 l2, l = l1 ++ c :: l2 → c ∉ l1 → ∀ e ∈ l1, betterEnc c e = true := by
  induction l generalizing c with
  | nil => cases h
  | cons a t ih =>
    intro l1 l2 hsplit hnot e he
    cases l1 with
    | nil => cases he
    | cons a1 t1 =>
      rw [List.cons_append] at hsplit
      injection hsplit with ha ht
      subst ha
      have hac : a ≠ c := fun hh => hnot (hh ▸ List.mem_cons_self a t1)
      cases hp : pickFirstBest t with
      | none =>
        rw [pickFirstBest_cons_none hp] at h
        cases h
        exact absurd rfl hac
      | some b =>
        rw [pickFirstBest_cons_some hp] at h
        by_cases hb : betterEnc b a = true
        · rw [if_pos hb] at h
          cases h
          rcases List.mem_cons.mp he with rfl | het1
          · exact hb
          · exact ih hp t1 l2 ht (fun hm => hnot (List.mem_cons_of_mem a hm)) e het1
        · rw [if_neg hb] at h
          cases h
          exact absurd rfl hac

/-- Control-flow reduction of `/api/rumble-zip` past a successful,
non-empty extraction. -/
theorem job_reduction (env : JobEnv) (pu : String) (mv : Nat) (rid : String)
    (w : WorldState) (urls : List String)
    (hex : extract_video_urls env.extract_info pu mv = .ok urls)
    (hne : urls ≠ []) :
    download_rumble_videos env pu mv rid w =
      (let dl := download_loop env.dl (staging_dir rid) urls 1 w
       let w2 : WorldState := { dl.2 with reported := dl.2.reported ++ [dl.1] }
       if dl.1 = 0 then
         job_fail w2 (staging_dir rid) (zip_path_of rid) 500
           "could not download any videos"
       else
         let zipped := create_zip_file w2 (staging_dir rid) (zip_path_of rid)
         match upload_zip_to_r2 env.uploadOk (zip_path_of rid)
             ("rumble_zips/" ++ rid ++ ".zip") zipped.2 with
         | .error e =>
           job_fail zipped.2 (staging_dir rid) (zip_path_of rid) 500
             ("internal server error: " ++ e)
         | .ok res =>
           (.ready { job_id := rid, page_url := pu, max_videos := mv,
                     file_count := zipped.1, download_url := res.1,
                     status := "ready" },
            { res.2 with scheduled :=
                res.2.scheduled ++ [(staging_dir rid, zip_path_of rid)] })) := by
  simp only [download_rumble_videos, hex]
  rw [if_neg hne]

/-! ## Claim theorems -/

/-- C9: the `page_url` validator accepts more than well-formed public
HTTP/HTTPS URLs — it accepts `localhost` hosts and any dotted quad of
one-to-three-digit numbers without range checks (`http://999.999.999.999`
passes), it rejects empty or whitespace-only input, and the value it
returns is the input with surrounding whitespace stripped. -/
theorem validate_url_lenient_accepts_and_strips :
    validate_url "http://localhost" = .ok "http://localhost" ∧
    validate_url "http://999.999.999.999" = .ok "http://999.999.999.999" ∧
    validate_url "" = .error "page_url must be a non-empty string" ∧
    validate_url "   " = .error "page_url must be a non-empty string" ∧
    validate_url "https://example.com/videos" = .ok "https://example.com/videos" ∧
    (∀ v r, validate_url v = .ok r → r = pyStrip v) := by
  refine ⟨by decide, by decide, by decide, by decide, by decide, ?_⟩
  intro v r h
  unfold validate_url at h
  by_cases h1 : (v = "" || pyStrip v = "") = true
  · rw [if_pos h1] at h
    cases h
  · rw [if_neg h1] at h
    by_cases h2 : url_pattern.rmatch (pyStrip v) = true
    · rw [if_pos h2] at h
      injection h with h
      exact h.symm
    · rw [if_neg h2] at h
      cases h

/-- C9 witness: the validator's successful result is the stripped input,
checked at a concrete padded URL. -/
theorem validate_url_strips_witness :
    "http://rumble.com/c/news" = pyStrip "  http://rumble.com/c/news  " :=
  validate_url_lenient_accepts_and_strips.2.2.2.2.2
    "  http://rumble.com/c/news  " "http://rumble.com/c/news" (by decide)

/-- C5: the resolver passes the requested limit through to the extraction
capability as `playlistend`, and truncates the returned sequence so its
length never exceeds the limit. -/
theorem listing_resolution_bound (m : Nat) :
    (extractOpts m).playlistend = m ∧
    ∀ (cap : ExtractCap) (pu : String) (urls : List String),
      extract_video_urls cap pu m = .ok urls → urls.length ≤ m := by
  refine ⟨rfl, ?_⟩
  intro cap pu urls h
  simp only [extract_video_urls] at h
  cases hc : cap (extractOpts m) pu with
  | error e =>
    rw [hc] at h
    cases h
  | ok o =>
    cases o with
    | none =>
      rw [hc] at h
      cases h
    | some r =>
      rw [hc] at h
      injection h with h
      rw [← h]
      exact List.length_take_le m _

/-- C5 witness: a capability returning two entries under limit 10. -/
theorem listing_resolution_bound_witness : (["u1", "u2"] : List String).length ≤ 10 :=
  (listing_resolution_bound 10).2
    (fun _ _ => .ok (some ⟨some [some ⟨some "u1", none⟩, some ⟨some "u2", none⟩],
      none, none⟩))
    "page" ["u1", "u2"] (by decide)

/-- C8: when the extraction result carries no (truthy) entries collection
but exposes a top-level URL or id, the resolver returns a one-element
sequence holding that item's own reference — the URL verbatim, or a
reference synthesized from the id. -/
theorem single_page_resolution :
    ∀ (r : ExtractResult) (m : Nat) (cap : ExtractCap) (pu u i : String),
      (r.entries = none ∨ r.entries = some []) →
      1 ≤ m →
      cap (extractOpts m) pu = .ok (some r) →
      (r.url = some u → extract_video_urls cap pu m = .ok [u]) ∧
      (r.url = none → r.id = some i →
        extract_video_urls cap pu m = .ok ["https://rumble.com/" ++ i]) := by
  intro r m cap pu u i hent hm hcap
  have hcol : collect_video_urls r = top_level_urls r := by
    unfold collect_video_urls
    rcases hent with h | h
    · rw [h]
    · rw [h]
      simp
  constructor
  · intro hu
    simp only [extract_video_urls, hcap, hcol]
    unfold top_level_urls
    rw [hu, List.take_of_length_le (by simpa using hm)]
  · intro hu hi
    simp only [extract_video_urls, hcap, hcol]
    unfold top_level_urls
    rw [hu, hi, List.take_of_length_le (by simpa using hm)]

/-- C8 witness: a single non-collection page with a top-level URL. -/
theorem single_page_resolution_witness :
    extract_video_urls (fun _ _ => .ok (some ⟨none, some "https://rumble.com/v1", none⟩))
      "page" 3 = .ok ["https://rumble.com/v1"] :=
  (single_page_resolution ⟨none, some "https://rumble.com/v1", none⟩ 3
    (fun _ _ => .ok (some ⟨none, some "https://rumble.com/v1", none⟩)) "page"
    "https://rumble.com/v1" "x" (Or.inl rfl) (by decide) rfl).1 rfl

/-- C6: a listing that yields zero entries produces an empty sequence
(not an error), which both endpoints report as a 400; a failing
extraction capability is reported as a 502 instead. -/
theorem empty_listing_handling :
    ∀ (r : ExtractResult) (env : JobEnv) (pu : String) (mv : Nat) (rid : String)
      (w : WorldState) (msg : String),
      ((r.entries = none ∨ r.entries = some []) → r.url = none → r.id = none →
        env.extract_info (extractOpts mv) pu = .ok (some r) →
        extract_video_urls env.extract_info pu mv = .ok [] ∧
        get_rumble_video_urls env.extract_info pu mv =
          .error (400, "no videos found on page") ∧
        (download_rumble_videos env pu mv rid w).1 =
          .httpError 400 "no videos found on page") ∧
      (env.extract_info (extractOpts mv) pu = .error msg →
        get_rumble_video_urls env.extract_info pu mv =
          .error (502, "failed to extract videos from page") ∧
        (download_rumble_videos env pu mv rid w).1 =
          .httpError 502 "failed to extract videos from page") := by
  intro r env pu mv rid w msg
  constructor
  · intro hent hu hi hcap
    have hcol : collect_video_urls r = [] := by
      unfold collect_video_urls top_level_urls
      rcases hent with h | h
      · rw [h, hu, hi]
      · rw [h, hu, hi]
        simp
    have hext : extract_video_urls env.extract_info pu mv = .ok [] := by
      simp only [extract_video_urls, hcap, hcol, List.take_nil]
    refine ⟨hext, ?_, ?_⟩
    · simp [get_rumble_video_urls, hext]
    · simp only [download_rumble_videos, hext, if_pos rfl]
      exact job_fail_fst
  · intro hcap
    have hext : extract_video_urls env.extract_info pu mv = .error msg := by
      simp only [extract_video_urls, hcap]
    constructor
    · simp [get_rumble_video_urls, hext]
    · simp only [download_rumble_videos, hext]
      exact job_fail_fst

/-- C6 witness: a zero-entry listing is a 400 for both endpoints, and a
raising capability is a 502. -/
theorem empty_listing_handling_witness :
    get_rumble_video_urls (fun _ _ => .ok (some ⟨some [], none, none⟩)) "p" 3 =
      .error (400, "no videos found on page") ∧
    (download_rumble_videos ⟨fun _ _ => .ok (some ⟨some [], none, none⟩),
      fun _ => ⟨true, false, []⟩, true⟩ "p" 3 "j" ⟨∅, [], [], [], [], []⟩).1 =
      .httpError 400 "no videos found on page" := by
  have h := (empty_listing_handling ⟨some [], none, none⟩
    ⟨fun _ _ => .ok (some ⟨some [], none, none⟩), fun _ => ⟨true, false, []⟩, true⟩
    "p" 3 "j" ⟨∅, [], [], [], [], []⟩ "m").1 (Or.inr rfl) rfl rfl rfl
  exact ⟨h.2.1, h.2.2⟩

/-- C7: the encoding-selection policy — filter to usable preferred-format
(mp4) candidates (the source requests exactly this preference from its
downloader via the format string), fall back to all usable candidates,
pick the `(resolution, bitrate)`-maximal survivor with ties broken by
encounter order; on Scenario D's candidates it picks the 1080p/800kbps
mp4 encoding. -/
theorem encoding_selection_policy :
    (∀ out, (downloadOpts out).format = "best[ext=mp4]/best") ∧
    (∀ cands : List Encoding, cands.filter preferredEnc ≠ [] →
      ∃ c, select_encoding cands = some c ∧ c ∈ cands.filter preferredEnc ∧
        (∀ e ∈ cands.filter preferredEnc, betterEnc e c = false) ∧
        ∀ l1 l2, cands.filter preferredEnc = l1 ++ c :: l2 → c ∉ l1 →
          ∀ e ∈ l1, betterEnc c e = true) ∧
    (∀ cands : List Encoding, cands.filter preferredEnc = [] →
      cands.filter usableEnc ≠ [] →
      ∃ c, select_encoding cands = some c ∧ c ∈ cands.filter usableEnc ∧
        ∀ e ∈ cands.filter usableEnc, betterEnc e c = false) ∧
    select_encoding scenarioD = some ⟨1080, 800, "mp4", some "u1080"⟩ := by
  refine ⟨fun out => rfl, ?_, ?_, by decide⟩
  · intro cands hne
    cases hp : pickFirstBest (cands.filter preferredEnc) with
    | none => exact absurd hp (pickFirstBest_ne_none hne)
    | some c =>
      refine ⟨c, ?_, (pickFirstBest_mem_max hp).1, (pickFirstBest_mem_max hp).2,
        pickFirstBest_first hp⟩
      simp only [select_encoding, if_pos hne]
      exact hp
  · intro cands hemp hne
    cases hp : pickFirstBest (cands.filter usableEnc) with
    | none => exact absurd hp (pickFirstBest_ne_none hne)
    | some c =>
      refine ⟨c, ?_, (pickFirstBest_mem_max hp).1, (pickFirstBest_mem_max hp).2⟩
      simp only [select_encoding, hemp]
      simp only [ne_eq, not_true_eq_false, if_false]
      exact hp

/-- C7 witness: the policy applied to Scenario D's candidate set. -/
theorem encoding_selection_policy_witness :
    ∃ c, select_encoding scenarioD = some c ∧ c ∈ scenarioD.filter preferredEnc ∧
      (∀ e ∈ scenarioD.filter preferredEnc, betterEnc e c = false) ∧
      ∀ l1 l2, scenarioD.filter preferredEnc = l1 ++ c :: l2 → c ∉ l1 →
        ∀ e ∈ l1, betterEnc c e = true :=
  encoding_selection_policy.2.1 scenarioD (by decide)

/-- C3: a failing per-item download removes the output file and every
known temp-suffix artifact before reporting `False`, so on failure no
file remains at the destination; on success exactly the output file is
there. -/
theorem transfer_failure_atomicity :
    ∀ (beh : DlBehavior) (u : String) (out : Path) (n : Nat) (w : WorldState),
      (∀ e ∈ beh.leftoverExts, e ∈ temp_extensions) →
      out ∉ w.fs →
      (∀ e ∈ temp_extensions, extPath out e ∉ w.fs) →
      ((download_video beh u out n w).1 = false →
        out ∉ (download_video beh u out n w).2.fs ∧
        ∀ e ∈ temp_extensions, extPath out e ∉ (download_video beh u out n w).2.fs) ∧
      ((download_video beh u out n w).1 = true →
        out ∈ (download_video beh u out n w).2.fs ∧
        ∀ e ∈ temp_extensions, extPath out e ∉ (download_video beh u out n w).2.fs) := by
  intro beh u out n w hjunk hf0 hfe
  constructor
  · intro hfail
    rw [download_video_fst] at hfail
    constructor
    · rw [mem_download_video_fail hfail]
      rintro ⟨_, hne, _⟩
      exact hne rfl
    · intro e he
      rw [mem_download_video_fail hfail]
      rintro ⟨_, _, hall⟩
      exact hall e he rfl
  · intro hsucc
    rw [download_video_fst] at hsucc
    constructor
    · rw [mem_download_video_succ hsucc]
      exact Or.inl rfl
    · intro e he
      rw [mem_download_video_succ hsucc]
      rintro (heq | hmem)
      · have hne : out.base ++ e ≠ out.base :=
          string_append_ne_left (temp_extensions_length e he)
        apply hne
        have hb := congrArg Path.base heq
        simpa [extPath] using hb
      · exact hfe e he hmem

/-- C3 witness: a failed download that left a `.part` artifact has no
file at the destination afterwards. -/
theorem transfer_failure_atomicity_witness :
    (⟨"tmp/j", "video01.mp4"⟩ : Path) ∉
      (download_video ⟨false, true, [".part"]⟩ "u" ⟨"tmp/j", "video01.mp4"⟩ 1
        ⟨∅, [], [], [], [], []⟩).2.fs ∧
    ∀ e ∈ temp_extensions,
      extPath ⟨"tmp/j", "video01.mp4"⟩ e ∉
        (download_video ⟨false, true, [".part"]⟩ "u" ⟨"tmp/j", "video01.mp4"⟩ 1
          ⟨∅, [], [], [], [], []⟩).2.fs :=
  (transfer_failure_atomicity ⟨false, true, [".part"]⟩ "u" ⟨"tmp/j", "video01.mp4"⟩ 1
    ⟨∅, [], [], [], [], []⟩ (by decide) (by decide) (by decide)).1 (by decide)

/-- C2: when every attempted download fails, the job never completes: it
raises the all-items-failed 500 error, creates no archive, uploads
nothing, and leaves no zip file at the job's archive path. -/
theorem all_failed_never_completes :
    ∀ (env : JobEnv) (pu : String) (mv : Nat) (rid : String) (w : WorldState)
      (urls : List String),
      extract_video_urls env.extract_info pu mv = .ok urls →
      urls ≠ [] →
      (∀ i, 1 ≤ i → i ≤ urls.length → (env.dl i).succeeds = false) →
      (download_rumble_videos env pu mv rid w).1 =
        .httpError 500 "could not download any videos" ∧
      (download_rumble_videos env pu mv rid w).2.zipsCreated = w.zipsCreated ∧
      (download_rumble_videos env pu mv rid w).2.uploads = w.uploads ∧
      zip_path_of rid ∉ (download_rumble_videos env pu mv rid w).2.fs := by
  intro env pu mv rid w urls hex hne hfail
  have hcnt : (download_loop env.dl (staging_dir rid) urls 1 w).1 = 0 := by
    rw [download_loop_fst, List.countP_eq_zero]
    intro a ha
    rw [List.mem_range'_1] at ha
    simp only [Bool.not_eq_true]
    exact hfail a ha.1 (by omega)
  have hltrace := download_loop_trace env.dl (staging_dir rid) urls 1 w
  rw [job_reduction env pu mv rid w urls hex hne]
  simp only [hcnt, if_pos rfl]
  refine ⟨job_fail_fst, hltrace.2.2.1, hltrace.2.2.2.1, ?_⟩
  intro hmem
  obtain ⟨_, _, hzp⟩ := mem_job_fail_fs.mp hmem
  exact hzp rfl

/-- C2 witness: both extracted items fail to download. -/
theorem all_failed_never_completes_witness :
    (download_rumble_videos
      ⟨fun _ _ => .ok (some ⟨some [some ⟨some "u1", none⟩, some ⟨some "u2", none⟩],
        none, none⟩), fun _ => ⟨false, false, []⟩, true⟩
      "p" 10 "j" ⟨∅, [], [], [], [], []⟩).1 =
      .httpError 500 "could not download any videos" :=
  (all_failed_never_completes
    ⟨fun _ _ => .ok (some ⟨some [some ⟨some "u1", none⟩, some ⟨some "u2", none⟩],
      none, none⟩), fun _ => ⟨false, false, []⟩, true⟩
    "p" 10 "j" ⟨∅, [], [], [], [], []⟩ ["u1", "u2"] (by decide) (by decide)
    (fun _ _ _ => rfl)).1

/-- C1: with exactly one item failing among `N` extracted urls, the loop
still attempts every item in order, the reported success count is the
number of successful items, namely `N - 1`, and (as long as a sibling
succeeded) the job still completes rather than erroring. -/
theorem isolation_of_item_failures :
    ∀ (env : JobEnv) (pu : String) (mv : Nat) (rid : String) (w : WorldState)
      (urls : List String) (k : Nat),
      extract_video_urls env.extract_info pu mv = .ok urls →
      1 ≤ k → k ≤ urls.length →
      (env.dl k).succeeds = false →
      (∀ i, 1 ≤ i → i ≤ urls.length → i ≠ k → (env.dl i).succeeds = true) →
      env.uploadOk = true →
      (download_rumble_videos env pu mv rid w).2.attempts =
        w.attempts ++ List.range' 1 urls.length ∧
      (download_rumble_videos env pu mv rid w).2.reported =
        w.reported ++ [urls.length - 1] ∧
      (List.range' 1 urls.length).countP (fun i => (env.dl i).succeeds) =
        urls.length - 1 ∧
      (1 < urls.length → (download_rumble_videos env pu mv rid w).1.isError = false) := by
  intro env pu mv rid w urls k hex hk1 hk2 hkf hsucc huo
  have hne : urls ≠ [] := by
    intro h
    rw [h] at hk2
    simp at hk2
    omega
  have hcnt : (List.range' 1 urls.length).countP (fun i => (env.dl i).succeeds) =
      urls.length - 1 :=
    countP_one_failure urls.length k env.dl hk1 hk2 hkf hsucc
  have hl1 : (download_loop env.dl (staging_dir rid) urls 1 w).1 =
      urls.length - 1 := by
    rw [download_loop_fst]
    exact hcnt
  have hltrace := download_loop_trace env.dl (staging_dir rid) urls 1 w
  rw [job_reduction env pu mv rid w urls hex hne]
  by_cases hz : (download_loop env.dl (staging_dir rid) urls 1 w).1 = 0
  · rw [if_pos hz]
    refine ⟨hltrace.1, ?_, hcnt, ?_⟩
    · show (download_loop env.dl (staging_dir rid) urls 1 w).2.reported ++
        [(download_loop env.dl (staging_dir rid) urls 1 w).1] =
        w.reported ++ [urls.length - 1]
      rw [hltrace.2.1, hl1]
    · intro hlen
      exfalso
      omega
  · simp only [if_neg hz, huo]
    refine ⟨hltrace.1, ?_, hcnt, fun _ => rfl⟩
    show (download_loop env.dl (staging_dir rid) urls 1 w).2.reported ++
      [(download_loop env.dl (staging_dir rid) urls 1 w).1] =
      w.reported ++ [urls.length - 1]
    rw [hltrace.2.1, hl1]

/-- C1 witness: two items, the first fails, the second succeeds — the
job reports one success and completes. -/
theorem isolation_of_item_failures_witness :
    (download_rumble_videos
      ⟨fun _ _ => .ok (some ⟨some [some ⟨some "u1", none⟩, some ⟨some "u2", none⟩],
        none, none⟩),
       fun i => if i = 1 then ⟨false, false, [".part"]⟩ else ⟨true, false, []⟩, true⟩
      "p" 10 "j" ⟨∅, [], [], [], [], []⟩).2.reported = [1] ∧
    (download_rumble_videos
      ⟨fun _ _ => .ok (some ⟨some [some ⟨some "u1", none⟩, some ⟨some "u2", none⟩],
        none, none⟩),
       fun i => if i = 1 then ⟨false, false, [".part"]⟩ else ⟨true, false, []⟩, true⟩
      "p" 10 "j" ⟨∅, [], [], [], [], []⟩).1.isError = false := by
  have h := isolation_of_item_failures
    ⟨fun _ _ => .ok (some ⟨some [some ⟨some "u1", none⟩, some ⟨some "u2", none⟩],
      none, none⟩),
     fun i => if i = 1 then ⟨false, false, [".part"]⟩ else ⟨true, false, []⟩, true⟩
    "p" 10 "j" ⟨∅, [], [], [], [], []⟩ ["u1", "u2"] 1 (by decide) (by decide) (by decide)
    rfl (by
      intro i h1 h2 hne
      simp [hne]) rfl
  exact ⟨h.2.1, h.2.2.2 (by decide)⟩

/-- C10: the `file_count` in the zip job's response equals the number of
successfully downloaded items — failed downloads clean up their staged
artifacts, so the zip walk packs exactly one file per success. -/
theorem file_count_equals_success_count :
    ∀ (env : JobEnv) (pu : String) (mv : Nat) (rid : String) (w : WorldState)
      (urls : List String),
      extract_video_urls env.extract_info pu mv = .ok urls →
      urls ≠ [] →
      env.uploadOk = true →
      (∀ p ∈ w.fs, p.dir ≠ staging_dir rid) →
      (∀ j, 1 ≤ j → j ≤ urls.length →
        ∀ e ∈ (env.dl j).leftoverExts, e ∈ temp_extensions) →
      (∀ i j, 1 ≤ i → i ≤ urls.length → 1 ≤ j → j ≤ urls.length → i ≠ j →
        video_filename i ≠ video_filename j) →
      (∀ i j, 1 ≤ i → i ≤ urls.length → 1 ≤ j → j ≤ urls.length →
        ∀ e ∈ temp_extensions, video_filename i ++ e ≠ video_filename j) →
      0 < (List.range' 1 urls.length).countP (fun i => (env.dl i).succeeds) →
      ∃ resp, (download_rumble_videos env pu mv rid w).1 = .ready resp ∧
        resp.file_count =
          (List.range' 1 urls.length).countP (fun i => (env.dl i).succeeds) := by
  intro env pu mv rid w urls hex hne huo hfresh hjunk hdist hdiste hpos
  have hcard := download_loop_file_count env.dl (staging_dir rid) urls 1 w hfresh
    (fun j h1 h2 => hjunk j h1 (by omega))
    (fun i j h1 h2 h3 h4 => hdist i j h1 (by omega) h3 (by omega))
    (fun i j h1 h2 h3 h4 => hdiste i j h1 (by omega) h3 (by omega))
  have hl1 := download_loop_fst env.dl (staging_dir rid) urls 1 w
  have hz : ¬((download_loop env.dl (staging_dir rid) urls 1 w).1 = 0) := by
    rw [hl1]
    omega
  rw [job_reduction env pu mv rid w urls hex hne, if_neg hz]
  simp only [huo]
  exact ⟨_, rfl, hcard⟩

/-- C10 witness: two items, one failure with a leftover output file and
one success — the response's `file_count` is the success count. -/
theorem file_count_equals_success_count_witness :
    ∃ resp, (download_rumble_videos
      ⟨fun _ _ => .ok (some ⟨some [some ⟨some "u1", none⟩, some ⟨some "u2", none⟩],
        none, none⟩),
       fun i => if i = 1 then ⟨false, true, []⟩ else ⟨true, false, []⟩, true⟩
      "p" 10 "j" ⟨∅, [], [], [], [], []⟩).1 = .ready resp ∧
      resp.file_count = (List.range' 1 (["u1", "u2"] : List String).length).countP
        (fun i => ((fun i => if i = 1 then (⟨false, true, []⟩ : DlBehavior)
          else ⟨true, false, []⟩) i).succeeds) :=
  file_count_equals_success_count
    ⟨fun _ _ => .ok (some ⟨some [some ⟨some "u1", none⟩, some ⟨some "u2", none⟩],
      none, none⟩),
     fun i => if i = 1 then ⟨false, true, []⟩ else ⟨true, false, []⟩, true⟩
    "p" 10 "j" ⟨∅, [], [], [], [], []⟩ ["u1", "u2"] (by decide) (by decide) rfl
    (by decide)
    (by
      intro j h1 h2 e he
      by_cases hj : j = 1 <;> simp [hj] at he)
    (by
      intro i j h1 h2 h3 h4 h5
      have h2' : i ≤ 2 := by simpa using h2
      have h4' : j ≤ 2 := by simpa using h4
      interval_cases i <;> interval_cases j <;> first | omega | decide)
    (by
      intro i j h1 h2 h3 h4
      have h2' : i ≤ 2 := by simpa using h2
      have h4' : j ≤ 2 := by simpa using h4
      interval_cases i <;> interval_cases j <;> decide)
    (by decide)

/-- C4: on every error exit of the zip job the staging directory and the
temporary archive are removed before the error propagates; on the success
exit their removal is scheduled as a background task, and running that
task removes them. -/
theorem staging_cleanup_on_every_exit :
    ∀ (env : JobEnv) (pu : String) (mv : Nat) (rid : String) (w : WorldState),
      ((download_rumble_videos env pu mv rid w).1.isError = true →
        (∀ p ∈ (download_rumble_videos env pu mv rid w).2.fs,
          p.dir ≠ staging_dir rid) ∧
        zip_path_of rid ∉ (download_rumble_videos env pu mv rid w).2.fs) ∧
      (∀ resp, (download_rumble_videos env pu mv rid w).1 = .ready resp →
        (staging_dir rid, zip_path_of rid) ∈
          (download_rumble_videos env pu mv rid w).2.scheduled ∧
        ∀ p ∈ cleanup_temp_files (download_rumble_videos env pu mv rid w).2.fs
            (staging_dir rid) (zip_path_of rid),
          p.dir ≠ staging_dir rid ∧ p ≠ zip_path_of rid) := by
  intro env pu mv rid w
  have hjf : ∀ (w' : WorldState) (st : Nat) (d : String),
      (∀ p ∈ (job_fail w' (staging_dir rid) (zip_path_of rid) st d).2.fs,
        p.dir ≠ staging_dir rid) ∧
      zip_path_of rid ∉ (job_fail w' (staging_dir rid) (zip_path_of rid) st d).2.fs := by
    intro w' st d
    constructor
    · intro p hp
      exact (mem_job_fail_fs.mp hp).2.1
    · intro hp
      exact (mem_job_fail_fs.mp hp).2.2 rfl
  have hclean : ∀ (fs : Finset Path),
      ∀ p ∈ cleanup_temp_files fs (staging_dir rid) (zip_path_of rid),
        p.dir ≠ staging_dir rid ∧ p ≠ zip_path_of rid := by
    intro fs p hp
    exact ⟨(mem_cleanup_temp_files.mp hp).2.1, (mem_cleanup_temp_files.mp hp).2.2⟩
  cases hex : extract_video_urls env.extract_info pu mv with
  | error e =>
    simp only [download_rumble_videos, hex]
    refine ⟨fun _ => hjf w 502 _, fun resp h => ?_⟩
    rw [job_fail_fst] at h
    cases h
  | ok urls =>
    by_cases hne : urls = []
    · subst hne
      simp only [download_rumble_videos, hex]
      rw [if_pos trivial]
      refine ⟨fun _ => hjf w 400 _, fun resp h => ?_⟩
      rw [job_fail_fst] at h
      cases h
    · rw [job_reduction env pu mv rid w urls hex hne]
      by_cases hz : (download_loop env.dl (staging_dir rid) urls 1 w).1 = 0
      · rw [if_pos hz]
        refine ⟨fun _ => hjf _ 500 _, fun resp h => ?_⟩
        rw [job_fail_fst] at h
        cases h
      · rw [if_neg hz]
        cases huo : env.uploadOk with
        | false =>
          simp only [huo]
          refine ⟨fun _ => hjf _ 500 _, fun resp h => ?_⟩
          have h' : JobOutcome.httpError 500 ("internal server error: " ++ "upload failed") =
              .ready resp := h
          cases h'
        | true =>
          simp only [huo]
          constructor
          · intro hiserr
            exact Bool.noConfusion hiserr
          · intro resp _
            refine ⟨?_, hclean _⟩
            show (staging_dir rid, zip_path_of rid) ∈
              (download_loop env.dl (staging_dir rid) urls 1 w).2.scheduled ++
                [(staging_dir rid, zip_path_of rid)]
            exact List.mem_append_right _ (List.mem_singleton.mpr rfl)

/-- C4 witness: a job whose extraction fails still leaves no staging
files and no archive behind. -/
theorem staging_cleanup_on_every_exit_witness :
    (∀ p ∈ (download_rumble_videos ⟨fun _ _ => .error "boom",
        fun _ => ⟨true, false, []⟩, true⟩ "p" 3 "j"
        ⟨{⟨"tmp/j", "stale.mp4"⟩}, [], [], [], [], []⟩).2.fs,
      p.dir ≠ staging_dir "j") ∧
    zip_path_of "j" ∉ (download_rumble_videos ⟨fun _ _ => .error "boom",
        fun _ => ⟨true, false, []⟩, true⟩ "p" 3 "j"
        ⟨{⟨"tmp/j", "stale.mp4"⟩}, [], [], [], [], []⟩).2.fs :=
  (staging_cleanup_on_every_exit ⟨fun _ _ => .error "boom",
    fun _ => ⟨true, false, []⟩, true⟩ "p" 3 "j"
    ⟨{⟨"tmp/j", "stale.mp4"⟩}, [], [], [], [], []⟩).1 (by decide)

end Rumble
